import Mathlib

/-!
# Verification of `bcoin` arithmetic primitives

Shallow embedding of the two source files of the repository:

* `src/primitives/field_element.rs` — finite-field elements `FieldElement<T>`
  with modular `add`/`sub`/`mul`/`div`/`pow`.  The default build enables the
  `Number` trait only for the unsigned primitive integer types
  (`u8` … `u128`, `usize`), so the value type is modelled by `Nat`.
  Rust panics (out-of-range operand, mismatched moduli, unsigned-subtraction
  overflow, division/remainder by zero, `Result::unwrap` on `Err`) are
  modelled by `Option.none`; a returned value is `Option.some`.
  Unsigned arithmetic is modelled with the checked (debug-profile) semantics:
  an underflowing `-` is a panic.

* `src/primitives/elliptic_curve/point.rs` — curve points `Point<T>` where
  `T` is any numeric type with `+`, `-`, `*`, `/`, `pow` and equality
  (the tests instantiate it with signed integers).  We model the coordinate
  type by an arbitrary commutative ring `R` with a `Div` operation and
  decidable equality; concrete evaluations instantiate `R` at `ℤ` or `ℚ`,
  where `+`, `-`, `*`, `^` agree with the Rust operations on the values
  involved and `/` agrees on the (exact) divisions involved.
  The panic in `__ensure_valid` and the unreachable final match arm of
  `add` are modelled by `Option.none`.
-/

namespace Bcoin

/-! ## The `mod_exp` crate

`field_element.rs` calls `mod_exp::mod_exp` (an external crate, not part of
this repository).  It implements right-to-left binary modular exponentiation
(square-and-multiply): repeatedly halve the exponent, squaring the base and
multiplying the accumulator by the base at each set bit.  `modExpGo` takes an
explicit fuel argument so that the recursion is structural; `modExp` supplies
fuel `e`, which is enough because the exponent at least halves each step. -/

def modExpGo (m : Nat) : Nat → Nat → Nat → Nat → Nat
  | 0, _b, _e, r => r
  | fuel + 1, b, e, r =>
    if e = 0 then r
    else modExpGo m fuel ((b * b) % m) (e / 2)
      (if e % 2 = 1 then (r * b) % m else r)

def modExp (b e m : Nat) : Nat :=
  modExpGo m e (b % m) e 1

/-! ## `FieldElement<T>` (over the default unsigned `Number` types)

The Rust struct is `FieldElement<T>(T, T)`; field `.0` is the value and
field `.1` the modulus (called `prime` in the constructor). -/

structure FieldElement where
  value : Nat
  modulus : Nat
deriving DecidableEq, Repr

/-- `Error<T>` of `field_element.rs`: the only variant is `NotInRange`.
Mismatched moduli are NOT represented here — the source panics on them. -/
inductive FEError where
  | notInRange : Nat → Nat → FEError
deriving DecidableEq, Repr

namespace FieldElement

/-- `has_valid_range` (the boolean result; the `panic` flag variant is folded
into the `Option` returns of the callers).  For the unsigned types the test
`self.0 < T::default()` is always false, leaving `self.0 >= self.1`. -/
def has_valid_range (fe : FieldElement) : Bool :=
  decide (fe.value < fe.modulus)

/-- `FieldElement::new`. -/
def new (num prime : Nat) : Except FEError FieldElement :=
  let fe : FieldElement := ⟨num, prime⟩
  if fe.has_valid_range then .ok fe else .error (.notInRange num prime)

/-- The `FieldElement::new(..).unwrap()` pattern used by the operators:
`none` models the panic of `unwrap` on `Err`. -/
def newUnwrap (num prime : Nat) : Option FieldElement :=
  match new num prime with
  | .ok fe => some fe
  | .error _ => none

/-- `impl Add for FieldElement` — `__ensure_valid_range` on both sides
(panic if out of range), panic `"Sides are of different fields"` if the
moduli differ, else `(self.0 + rhs.0) % self.1` re-wrapped via
`new(..).unwrap()`. -/
def add (a rhs : FieldElement) : Option FieldElement :=
  if ¬ a.has_valid_range then none
  else if ¬ rhs.has_valid_range then none
  else if a.modulus ≠ rhs.modulus then none
  else newUnwrap ((a.value + rhs.value) % a.modulus) a.modulus

/-- `impl Sub for FieldElement` — same guards; the inner `self.0 - rhs.0` is
unsigned subtraction, which panics (overflow check) when
`self.0 < rhs.0`. -/
def sub (a rhs : FieldElement) : Option FieldElement :=
  if ¬ a.has_valid_range then none
  else if ¬ rhs.has_valid_range then none
  else if a.modulus ≠ rhs.modulus then none
  else if a.value < rhs.value then none
  else newUnwrap ((a.value - rhs.value) % a.modulus) a.modulus

/-- `impl Mul for FieldElement`. -/
def mul (a rhs : FieldElement) : Option FieldElement :=
  if ¬ a.has_valid_range then none
  else if ¬ rhs.has_valid_range then none
  else if a.modulus ≠ rhs.modulus then none
  else newUnwrap ((a.value * rhs.value) % a.modulus) a.modulus

/-- `impl Div for FieldElement` — after the guards it computes
`self.0 * mod_exp(rhs.0, self.1 - 2, self.1) % self.1`.  The unsigned
`self.1 - two` panics when the modulus is below 2. -/
def div (a rhs : FieldElement) : Option FieldElement :=
  if ¬ a.has_valid_range then none
  else if ¬ rhs.has_valid_range then none
  else if a.modulus ≠ rhs.modulus then none
  else if a.modulus < 2 then none
  else newUnwrap (a.value * modExp rhs.value (a.modulus - 2) a.modulus % a.modulus)
    a.modulus

/-- `FieldElement::pow` — `__ensure_valid_range` on `self`; exponent `0`
returns `FieldElement(1, self.1)` directly (no re-validation); otherwise the
exponent is reduced by `rem_euclid` against `self.1 - 1` (`%` on unsigned;
panics — remainder by zero — when the modulus is 1) and `mod_exp` is applied.
The result is built with the raw constructor, not `new`. -/
def pow (a : FieldElement) (e : Nat) : Option FieldElement :=
  if ¬ a.has_valid_range then none
  else if e = 0 then some ⟨1, a.modulus⟩
  else if a.modulus - 1 = 0 then none
  else some ⟨modExp a.value (e % (a.modulus - 1)) a.modulus, a.modulus⟩

/-- `impl PartialEq for FieldElement` compares only the `value` field. -/
def feEq (a b : FieldElement) : Bool :=
  decide (a.value = b.value)

end FieldElement

/-! ## `Point<T>` (`src/primitives/elliptic_curve/point.rs`)

The Rust enum is
`enum Point<T> { Point { a, b, x, y }, Infinite { a, b } }`.
The coordinate type `T` is modelled by a commutative ring `R` with a `Div`
operation and decidable equality; the repository's own tests instantiate `T`
with signed integers (modelled by `ℤ`, whose `/` is the same truncating
division).  `x.pow(2_u8)` and `x.pow(3_u8)` (repeated multiplication in the
`num` crate) are modelled by `x ^ 2` and `x ^ 3`. -/

inductive Point (R : Type) where
  | point (a b x y : R)
  | infinite (a b : R)
deriving DecidableEq, Repr

/-- `Error<T>` of `point.rs`. -/
inductive PError (R : Type) where
  | invalidPoint
  | notOnCurve (x y : R)
deriving DecidableEq, Repr

namespace Point

variable {R : Type} [CommRing R] [Div R] [DecidableEq R]

/-- `Point::is_valid` (boolean result; the `panic` flag variant is folded into
the `Option` returns of the callers): an affine point is valid iff
`y.pow(2) == x.pow(3) + a * x + b`; `Infinite` is always valid. -/
def is_valid : Point R → Bool
  | .point a b x y => decide (y ^ 2 = x ^ 3 + a * x + b)
  | .infinite _ _ => true

/-- `Point::new`. -/
def new (ox oy : Option R) (a b : R) : Except (PError R) (Point R) :=
  match ox, oy with
  | none, none => .ok (.infinite a b)
  | some x, some y =>
      if (Point.point a b x y).is_valid then .ok (.point a b x y)
      else .error (.notOnCurve x y)
  | _, _ => .error .invalidPoint

/-- `impl Add for Point` — `self.__ensure_valid()` (panic if `self` is an
affine point off its curve; `rhs` is never checked), then the ordered match:
both infinite; infinite + point (returns `rhs`); point + infinite (returns
`self`); equal `x`, different `y`; equal `x` and a zero ordinate; equal `x`
and equal `y` (doubling, with `new_x = s.pow(2) * x - rhs_x` exactly as in
the source); different `x` (chord).  The final `panic!("Should never reach
this point")` arm is the last `none`.  No curve-parameter comparison is
performed anywhere: the `a`/`b` of `rhs` are matched with `_`. -/
def add (p q : Point R) : Option (Point R) :=
  if ¬ p.is_valid then none
  else
    match p, q with
    | .infinite a b, .infinite _ _ => some (.infinite a b)
    | .infinite _ _, .point a b x y => some (.point a b x y)
    | .point a b x y, .infinite _ _ => some (.point a b x y)
    | .point a b x y, .point _ _ rx ry =>
      if x = rx ∧ y ≠ ry then some (.infinite a b)
      else if x = rx ∧ (y = 0 ∨ ry = 0) then some (.infinite a b)
      else if x = rx ∧ y = ry then
        let s := (3 * x ^ 2 + a) / (2 * y)
        let newX := s ^ 2 * x - rx
        let newY := s * (x - newX) - y
        some (.point a b newX newY)
      else if x ≠ rx then
        let s := (ry - y) / (rx - x)
        let newX := s ^ 2 - x - rx
        let newY := s * (x - newX) - y
        some (.point a b newX newY)
      else none

/-- The curve parameters `(a, b)` carried by a point. -/
def params : Point R → R × R
  | .point a b _ _ => (a, b)
  | .infinite a b => (a, b)

end Point

/-! ### `mod_exp` computes modular exponentiation (theorems begin here) -/

theorem modExpGo_spec (m : Nat) :
    ∀ fuel b e r, e ≤ fuel → r < m →
      modExpGo m fuel b e r = r * b ^ e % m := by
  intro fuel
  induction fuel with
  | zero =>
    intro b e r he hr
    have h0 : e = 0 := by omega
    subst h0
    simp [modExpGo, Nat.mod_eq_of_lt hr]
  | succ n ih =>
    intro b e r he hr
    by_cases h0 : e = 0
    · subst h0
      simp [modExpGo, Nat.mod_eq_of_lt hr]
    · have hm : 0 < m := by omega
      have he' : e / 2 ≤ n := by omega
      have hbb : ((b * b) % m) ^ (e / 2) ≡ (b * b) ^ (e / 2) [MOD m] :=
        (Nat.mod_modEq (b * b) m).pow _
      by_cases hodd : e % 2 = 1
      · have hr' : (r * b) % m < m := Nat.mod_lt _ hm
        rw [modExpGo, if_neg h0, if_pos hodd, ih _ _ _ he' hr']
        have h1 : (r * b) % m * ((b * b) % m) ^ (e / 2) ≡ r * b ^ e [MOD m] := by
          have heq : r * b * (b * b) ^ (e / 2) = r * b ^ e := by
            conv_rhs => rw [show e = 2 * (e / 2) + 1 by omega, pow_succ, pow_mul]
            rw [pow_two]
            ring
          calc (r * b) % m * ((b * b) % m) ^ (e / 2)
              ≡ r * b * (b * b) ^ (e / 2) [MOD m] := (Nat.mod_modEq (r * b) m).mul hbb
            _ = r * b ^ e := heq
        exact h1
      · rw [modExpGo, if_neg h0, if_neg (by omega), ih _ _ _ he' hr]
        have h2 : r * ((b * b) % m) ^ (e / 2) ≡ r * b ^ e [MOD m] := by
          have heq : r * (b * b) ^ (e / 2) = r * b ^ e := by
            conv_rhs => rw [show e = 2 * (e / 2) by omega, pow_mul]
            rw [pow_two]
          calc r * ((b * b) % m) ^ (e / 2)
              ≡ r * (b * b) ^ (e / 2) [MOD m] := hbb.mul_left r
            _ = r * b ^ e := heq
        exact h2

theorem modExp_spec (b e m : Nat) (hm : 1 < m) : modExp b e m = b ^ e % m := by
  rw [modExp, modExpGo_spec m e (b % m) e 1 le_rfl hm, one_mul, ← Nat.pow_mod]

/-! ### Helper lemmas about `FieldElement` -/

theorem FieldElement.newUnwrap_lt {n p : Nat} (h : n < p) :
    FieldElement.newUnwrap n p = some ⟨n, p⟩ := by
  simp [FieldElement.newUnwrap, FieldElement.new, FieldElement.has_valid_range, h]

theorem FieldElement.newUnwrap_eq {n p : Nat} {r : FieldElement}
    (h : FieldElement.newUnwrap n p = some r) : r = ⟨n, p⟩ := by
  by_cases hnp : n < p
  · rw [FieldElement.newUnwrap_lt hnp] at h
    exact (Option.some.inj h).symm
  · rw [show FieldElement.newUnwrap n p = none by
      simp [FieldElement.newUnwrap, FieldElement.new, FieldElement.has_valid_range,
        hnp]] at h
    exact absurd h (by simp)

theorem FieldElement.add_eq {v w m : Nat} (hv : v < m) (hw : w < m) :
    FieldElement.add ⟨v, m⟩ ⟨w, m⟩ = some ⟨(v + w) % m, m⟩ := by
  have h : (v + w) % m < m := Nat.mod_lt _ (by omega)
  simp [FieldElement.add, FieldElement.has_valid_range, hv, hw,
    FieldElement.newUnwrap_lt h]

theorem FieldElement.mul_eq {v w m : Nat} (hv : v < m) (hw : w < m) :
    FieldElement.mul ⟨v, m⟩ ⟨w, m⟩ = some ⟨(v * w) % m, m⟩ := by
  have h : (v * w) % m < m := Nat.mod_lt _ (by omega)
  simp [FieldElement.mul, FieldElement.has_valid_range, hv, hw,
    FieldElement.newUnwrap_lt h]

theorem FieldElement.div_eq {v w m : Nat} (hv : v < m) (hw : w < m) (hm : 2 ≤ m) :
    FieldElement.div ⟨v, m⟩ ⟨w, m⟩
      = some ⟨v * modExp w (m - 2) m % m, m⟩ := by
  have h : v * modExp w (m - 2) m % m < m := Nat.mod_lt _ (by omega)
  simp [FieldElement.div, FieldElement.has_valid_range, hv, hw, Nat.not_lt.mpr hm,
    FieldElement.newUnwrap_lt h]

/-- C4 as stated is false: mismatched moduli do not produce a returned
`DifferentFields` error — there is no such variant in `Error<T>` — they hit
`panic!("Sides are of different fields")`, modelled by `none`. -/
theorem C4_counterexample :
    FieldElement.add ⟨7, 13⟩ ⟨12, 100⟩ = none := by decide

/-- C4 (amended): for every pair of valid field elements whose moduli differ,
each of `add`, `sub`, `mul`, `div` panics fatally ("Sides are of different
fields"); no error value is returned (the `Error` type of `field_element.rs`
has no `DifferentFields` variant at all). -/
theorem C4_mismatched_moduli_fatal (a b : FieldElement)
    (ha : a.has_valid_range) (hb : b.has_valid_range)
    (hm : a.modulus ≠ b.modulus) :
    FieldElement.add a b = none ∧ FieldElement.sub a b = none ∧
    FieldElement.mul a b = none ∧ FieldElement.div a b = none := by
  refine ⟨?_, ?_, ?_, ?_⟩ <;>
    simp [FieldElement.add, FieldElement.sub, FieldElement.mul, FieldElement.div,
      ha, hb, hm]

theorem C4_witness :
    (FieldElement.has_valid_range ⟨7, 13⟩ ∧ FieldElement.has_valid_range ⟨12, 100⟩ ∧
      (FieldElement.modulus ⟨7, 13⟩ ≠ FieldElement.modulus ⟨12, 100⟩)) ∧
    (FieldElement.sub ⟨7, 13⟩ ⟨12, 100⟩ = none ∧
      FieldElement.mul ⟨7, 13⟩ ⟨12, 100⟩ = none ∧
      FieldElement.div ⟨7, 13⟩ ⟨12, 100⟩ = none) :=
  ⟨⟨by decide, by decide, by decide⟩,
    (C4_mismatched_moduli_fatal ⟨7, 13⟩ ⟨12, 100⟩ (by decide) (by decide)
      (by decide)).2⟩

/-- C5 fails on the code: subtracting valid `FieldElement(12, 13)` from valid
`FieldElement(7, 13)` does not return `(7 - 12) mod 13 = 8`; the unsigned
`self.0 - rhs.0` overflows (7 < 12) and the operation panics. -/
theorem C5_sub_underflow_eval :
    FieldElement.sub ⟨7, 13⟩ ⟨12, 13⟩ = none ∧
    FieldElement.sub ⟨7, 13⟩ ⟨12, 13⟩ ≠ some ⟨8, 13⟩ := by
  refine ⟨by decide, by decide⟩

/-- C9: every `FieldElement` operation that completes successfully returns a
result whose `modulus` is the left operand's `modulus`. -/
theorem C9_modulus_preserved (a b : FieldElement) (e : Nat) (r : FieldElement)
    (h : FieldElement.add a b = some r ∨ FieldElement.sub a b = some r ∨
      FieldElement.mul a b = some r ∨ FieldElement.div a b = some r ∨
      FieldElement.pow a e = some r) :
    r.modulus = a.modulus := by
  rcases h with h | h | h | h | h
  · rw [FieldElement.add] at h
    split_ifs at h
    rw [FieldElement.newUnwrap_eq h]
  · rw [FieldElement.sub] at h
    split_ifs at h
    rw [FieldElement.newUnwrap_eq h]
  · rw [FieldElement.mul] at h
    split_ifs at h
    rw [FieldElement.newUnwrap_eq h]
  · rw [FieldElement.div] at h
    split_ifs at h
    rw [FieldElement.newUnwrap_eq h]
  · rw [FieldElement.pow] at h
    split_ifs at h
    · rw [← Option.some.inj h]
    · rw [← Option.some.inj h]

theorem C9_witness :
    FieldElement.add ⟨1, 5⟩ ⟨2, 5⟩ = some ⟨3, 5⟩ ∧
    FieldElement.modulus ⟨3, 5⟩ = FieldElement.modulus ⟨1, 5⟩ :=
  ⟨by decide, C9_modulus_preserved ⟨1, 5⟩ ⟨2, 5⟩ 0 ⟨3, 5⟩ (Or.inl (by decide))⟩

/-- C6: for every nonzero `a` in a prime field of modulus `p`, division
computes the inverse of the divisor as `a ^ (p - 2) mod p` by modular
exponentiation (`1 / a` is `div` of the element `1` by the element `a`), and
`a * (1 / a)` is the multiplicative identity `1`. -/
theorem C6_inverse_round_trip (p a : Nat) (hp : p.Prime) (ha : 0 < a)
    (hap : a < p) :
    ∃ inv : FieldElement,
      FieldElement.div ⟨1, p⟩ ⟨a, p⟩ = some inv ∧
      inv.value = modExp a (p - 2) p ∧
      FieldElement.mul ⟨a, p⟩ inv = some ⟨1, p⟩ := by
  have h2 : 2 ≤ p := hp.two_le
  have h1p : 1 < p := h2
  have hme : modExp a (p - 2) p = a ^ (p - 2) % p := modExp_spec a (p - 2) p h1p
  have hinvlt : modExp a (p - 2) p < p := by
    rw [hme]
    exact Nat.mod_lt _ (by omega)
  have hcop : Nat.Coprime a p := by
    have hpd : ¬ p ∣ a := fun hdvd => absurd (Nat.le_of_dvd ha hdvd) (by omega)
    exact ((Nat.Prime.coprime_iff_not_dvd hp).mpr hpd).symm
  have hferm : a ^ (p - 1) ≡ 1 [MOD p] := by
    have h := Nat.ModEq.pow_totient hcop
    rwa [Nat.totient_prime hp] at h
  have hexp : a * a ^ (p - 2) = a ^ (p - 1) := by
    rw [mul_comm, ← pow_succ]
    congr 1
    omega
  have key : a * (a ^ (p - 2) % p) % p = 1 := by
    have h5 : a * (a ^ (p - 2) % p) ≡ a ^ (p - 1) [MOD p] := by
      calc a * (a ^ (p - 2) % p)
          ≡ a * a ^ (p - 2) [MOD p] := (Nat.mod_modEq _ p).mul_left a
        _ = a ^ (p - 1) := hexp
    have h7 : a * (a ^ (p - 2) % p) % p = 1 % p := h5.trans hferm
    rwa [Nat.mod_eq_of_lt h1p] at h7
  refine ⟨⟨modExp a (p - 2) p, p⟩, ?_, rfl, ?_⟩
  · rw [FieldElement.div_eq h1p hap h2, one_mul, Nat.mod_eq_of_lt hinvlt]
  · rw [FieldElement.mul_eq hap hinvlt, hme, key]

theorem C6_witness :
    Nat.Prime 13 ∧ 0 < 2 ∧ 2 < 13 ∧
    ∃ inv : FieldElement,
      FieldElement.div ⟨1, 13⟩ ⟨2, 13⟩ = some inv ∧
      inv.value = modExp 2 11 13 ∧
      FieldElement.mul ⟨2, 13⟩ inv = some ⟨1, 13⟩ :=
  ⟨by norm_num, by decide, by decide,
    C6_inverse_round_trip 13 2 (by norm_num) (by decide) (by decide)⟩

/-- C8: dividing a valid field element by the zero element of a prime field
with modulus above 2 does not fail: `0 ^ (p - 2) mod p = 0`, so the quotient
is the field element with value `0`. -/
theorem C8_div_by_zero_returns_zero (p v : Nat) (hp : p.Prime) (h2 : 2 < p)
    (hv : v < p) :
    FieldElement.div ⟨v, p⟩ ⟨0, p⟩ = some ⟨0, p⟩ := by
  have h1p : 1 < p := by omega
  have hz : modExp 0 (p - 2) p = 0 := by
    rw [modExp_spec 0 (p - 2) p h1p, zero_pow (show p - 2 ≠ 0 by omega),
      Nat.zero_mod]
  rw [FieldElement.div_eq hv (by omega) (by omega), hz, Nat.mul_zero,
    Nat.zero_mod]

theorem C8_witness :
    Nat.Prime 5 ∧ 2 < 5 ∧ 3 < 5 ∧
    FieldElement.div ⟨3, 5⟩ ⟨0, 5⟩ = some ⟨0, 5⟩ :=
  ⟨by norm_num, by decide, by decide,
    C8_div_by_zero_returns_zero 5 3 (by norm_num) (by decide) (by decide)⟩

/-! ### Helper lemmas about `Point` -/

/-- Whenever the left operand passes `__ensure_valid`, `Point::add` returns a
point: the six match arms cover every constructor combination, so the final
`panic!("Should never reach this point")` arm is unreachable.  No curve
parameters are compared on the way. -/
theorem Point.add_isSome {R : Type} [CommRing R] [Div R] [DecidableEq R]
    (p q : Point R) (hok : p.is_valid = true) :
    ∃ r, Point.add p q = some r := by
  cases p with
  | infinite pa pb =>
    cases q with
    | infinite qa qb => exact ⟨.infinite pa pb, rfl⟩
    | point qa qb qx qy => exact ⟨.point qa qb qx qy, rfl⟩
  | point pa pb px py =>
    cases q with
    | infinite qa qb =>
      refine ⟨.point pa pb px py, ?_⟩
      simp [Point.add, hok]
    | point qa qb qx qy =>
      rw [Point.add, if_neg (by simp [hok])]
      split_ifs with h1 h2 h3 h4
      · exact ⟨_, rfl⟩
      · exact ⟨_, rfl⟩
      · exact ⟨_, rfl⟩
      · exact ⟨_, rfl⟩
      · tauto

/-- C7: `Point::new` returns `Infinite` on two `None`s; on two `Some`s it
returns the affine point exactly when the curve equation holds and
`NotOnCurve(x, y)` otherwise; with exactly one coordinate it returns
`InvalidPoint`. -/
theorem C7_new_case_analysis (R : Type) [CommRing R] [Div R] [DecidableEq R]
    (a b x y : R) :
    Point.new (none : Option R) none a b = .ok (.infinite a b) ∧
    (y ^ 2 = x ^ 3 + a * x + b →
      Point.new (some x) (some y) a b = .ok (.point a b x y)) ∧
    (y ^ 2 ≠ x ^ 3 + a * x + b →
      Point.new (some x) (some y) a b = .error (.notOnCurve x y)) ∧
    Point.new (some x) (none : Option R) a b = .error .invalidPoint ∧
    Point.new (none : Option R) (some y) a b = .error .invalidPoint := by
  refine ⟨rfl, ?_, ?_, rfl, rfl⟩
  · intro h
    simp [Point.new, Point.is_valid, h]
  · intro h
    simp [Point.new, Point.is_valid, h]

theorem C7_witness :
    ((-1 : ℤ) ^ 2 = (-1) ^ 3 + 5 * (-1) + 7 ∧
      Point.new (some (-1)) (some (-1)) (5 : ℤ) 7 = .ok (.point 5 7 (-1) (-1))) ∧
    ((-2 : ℤ) ^ 2 ≠ (-1) ^ 3 + 5 * (-1) + 7 ∧
      Point.new (some (-1)) (some (-2)) (5 : ℤ) 7
        = .error (.notOnCurve (-1) (-2))) :=
  ⟨⟨by decide, (C7_new_case_analysis ℤ 5 7 (-1) (-1)).2.1 (by decide)⟩,
    ⟨by decide, (C7_new_case_analysis ℤ 5 7 (-1) (-2)).2.2.1 (by decide)⟩⟩

/-- C10: `Point::add` validates only its left operand — an affine `self` off
its curve panics, while any `rhs` whatsoever (validated or not) never causes
a failure when `self` is valid: a result is always computed. -/
theorem C10_lhs_only_validation (R : Type) [CommRing R] [Div R] [DecidableEq R]
    (a b x y : R) (q p q' : Point R)
    (hbad : y ^ 2 ≠ x ^ 3 + a * x + b) (hok : p.is_valid = true) :
    Point.add (.point a b x y) q = none ∧ ∃ r, Point.add p q' = some r := by
  constructor
  · simp [Point.add, Point.is_valid, hbad]
  · exact Point.add_isSome p q' hok

theorem C10_witness :
    (((0 : ℤ) ^ 2 ≠ (-1) ^ 3 + 5 * (-1) + 7) ∧
      Point.is_valid (R := ℤ) (.point 5 7 (-1) (-1)) = true ∧
      Point.is_valid (R := ℤ) (.point 0 0 9 9) = false) ∧
    (Point.add (R := ℤ) (.point 5 7 (-1) 0) (.point 0 0 9 9) = none ∧
      ∃ r, Point.add (R := ℤ) (.point 5 7 (-1) (-1)) (.point 0 0 9 9) = some r) :=
  ⟨⟨by decide, by decide, by decide⟩,
    C10_lhs_only_validation ℤ 5 7 (-1) 0 (.point 0 0 9 9) (.point 5 7 (-1) (-1))
      (.point 0 0 9 9) (by decide) (by decide)⟩

/-- C3 as stated is false: these two points lie on different curves
(`(a, b) = (5, 7)` versus `(1, 1)`, each valid on its own curve), yet `add`
silently returns a result instead of failing — the source never compares the
operands' curve parameters. -/
theorem C3_counterexample :
    Point.params (R := ℤ) (.point 5 7 (-1) (-1)) ≠
      Point.params (R := ℤ) (.point 1 1 0 1) ∧
    Point.is_valid (R := ℤ) (.point 5 7 (-1) (-1)) = true ∧
    Point.is_valid (R := ℤ) (.point 1 1 0 1) = true ∧
    Point.add (R := ℤ) (.point 5 7 (-1) (-1)) (.point 1 1 0 1)
      = some (.point 5 7 5 (-11)) :=
  ⟨by decide, by decide, by decide, by decide⟩

/-- C3 (amended): `Point::add` performs no curve-parameter comparison at all.
When the operands' `a` or `b` differ and the left operand passes its validity
check, `add` silently returns a result point (built from the left operand's
parameters, or `rhs` unchanged when `self` is `Infinite`) rather than
failing. -/
theorem C3_no_curve_parameter_check (R : Type) [CommRing R] [Div R]
    [DecidableEq R] (p q : Point R) (hok : p.is_valid = true)
    (hne : p.params ≠ q.params) :
    ∃ r, Point.add p q = some r :=
  Point.add_isSome p q hok

theorem C3_witness :
    (Point.is_valid (R := ℤ) (.point 5 7 (-1) (-1)) = true ∧
      Point.params (R := ℤ) (.point 5 7 (-1) (-1)) ≠
        Point.params (R := ℤ) (.point 1 1 0 1)) ∧
    (∃ r, Point.add (R := ℤ) (.point 5 7 (-1) (-1)) (.point 1 1 0 1) = some r) :=
  ⟨⟨by decide, by decide⟩,
    C3_no_curve_parameter_check ℤ (.point 5 7 (-1) (-1)) (.point 1 1 0 1)
      (by decide) (by decide)⟩

/-- C1 fails on the code (a known slip the spec flags): doubling the valid
point `(-1, -1)` on `y² = x³ + 5x + 7` (coordinates in `ℚ`, where `/` is
exact field division) returns `(-15, -55)` — the source computes
`new_x = s² * x − rhs_x` — whereas the claimed formulas
`x' = s² − 2x = 18`, `y' = s(x − x') − y = 77` give `(18, 77)`. -/
theorem C1_doubling_uses_wrong_formula :
    Point.add (R := ℚ) (.point 5 7 (-1) (-1)) (.point 5 7 (-1) (-1))
      = some (.point 5 7 (-15) (-55)) ∧
    (((3 * (-1 : ℚ) ^ 2 + 5) / (2 * (-1))) ^ 2 - 2 * (-1) = 18 ∧
      ((3 * (-1 : ℚ) ^ 2 + 5) / (2 * (-1))) * ((-1) - 18) - (-1) = 77) ∧
    Point.add (R := ℚ) (.point 5 7 (-1) (-1)) (.point 5 7 (-1) (-1))
      ≠ some (.point 5 7 18 77) := by
  have h1 : Point.add (R := ℚ) (.point 5 7 (-1) (-1)) (.point 5 7 (-1) (-1))
      = some (.point 5 7 (-15) (-55)) := by
    rw [Point.add]
    norm_num [Point.is_valid]
  refine ⟨h1, ⟨by norm_num, by norm_num⟩, ?_⟩
  rw [h1]
  simp only [ne_eq, Option.some.injEq, Point.point.injEq]
  norm_num

/-- C2 fails on the code, as a consequence of the doubling-formula slip:
adding the valid point `(-1, -1)` on `y² = x³ + 5x + 7` to itself (both
operands valid, same curve, coordinates in `ℚ`) yields `(-15, -55)`, which
does not satisfy the curve equation. -/
theorem C2_sum_leaves_curve :
    Point.is_valid (R := ℚ) (.point 5 7 (-1) (-1)) = true ∧
    Point.add (R := ℚ) (.point 5 7 (-1) (-1)) (.point 5 7 (-1) (-1))
      = some (.point 5 7 (-15) (-55)) ∧
    Point.is_valid (R := ℚ) (.point 5 7 (-15) (-55)) = false := by
  refine ⟨?_, ?_, ?_⟩
  · rw [Point.is_valid]
    norm_num
  · rw [Point.add]
    norm_num [Point.is_valid]
  · rw [Point.is_valid]
    norm_num

end Bcoin
